import Mathlib

/-!
# Verification of the slurm_manager crate

Shallow embedding of the job data model (src/job.rs, src/job_status.rs,
src/job_post_processing.rs) and the queue controller (src/slurm_manager.rs).

Modelling conventions:
* Rust machine integers (i32, i64) are modelled as `Int`; the values the
  claims exercise are far from the 32-bit bounds, and the one place where
  the bound matters semantically (string-to-i32 parsing) checks it
  explicitly.
* Rust `String`s that the controller inspects character by character
  (scheduler stdout) are modelled as `List Char`; descriptive string fields
  of a job stay `String`.
* `HashMap<String, String>` is modelled as an association list and
  `HashSet<i32>` as a `List Int` queried through `contains`.
* A fatal Rust abort (the `expect`/unrecoverable branches) is modelled by
  `Option`, with `none` standing for the abort.
* The two external scheduler interactions are abstracted by their results:
  the raw outcome of launching `sbatch` is an
  `Except (List Char) (List Char)` input (launch-failure message, or the
  process stdout), and the outcome of `squeue` is the
  `Except SlurmInteractionError (List Int)` result of get_running_jobs.
-/

/-- Job lifecycle status (src/job_status.rs). -/
inductive SlurmJobStatus where
  | CREATED
  | PENDING
  | SUBMITTED
  | FINISHED
  | CRASHED
  deriving DecidableEq, Repr

/-- Memory request. Modelled from the spec: a value with a unit, megabytes or
gigabytes, never mixed (the crate's memory_size module is referenced by
src/lib.rs but its file is not under src/; only the two variants the sources
use are modelled). -/
inductive Memory where
  | MegaByte (v : Nat)
  | GigaByte (v : Nat)
  deriving DecidableEq, Repr

/-- Completion predicate (src/job_post_processing.rs): a stored parameter map
and a stored function evaluated on it. -/
structure SlurmJobPostProcessing where
  param : List (String × String)
  check : List (String × String) → Bool

/-- Job record (src/job.rs). -/
structure SlurmJob where
  id : String
  number : Option Int
  command : String
  working_directory : Option String
  env : List (String × String)
  description : String
  status : SlurmJobStatus
  max_run_time : Option String
  output_file : Option String
  error_file : Option String
  on_finished : SlurmJobPostProcessing
  memory : Memory
  cpus : Nat

/-- set_status (src/job.rs:81-83): an unconditional overwrite. -/
def SlurmJob.set_status (j : SlurmJob) (status : SlurmJobStatus) : SlurmJob :=
  { j with status := status }

/-- set_number (src/job.rs:74-79): overwriting an existing number is a fatal
abort, modelled as `none`. -/
def SlurmJob.set_number (j : SlurmJob) (number : Int) : Option SlurmJob :=
  match j.number with
  | some _ => none
  | none => some { j with number := some number }

/-- get_number (src/job.rs:85-88): `expect` on a missing number is a fatal
abort, modelled as `none`. -/
def SlurmJob.get_number (j : SlurmJob) : Option Int := j.number

/-- run_post_processing (src/job.rs:66-72); SlurmJobPostProcessing::check
applies the stored function to the stored parameter map. -/
def SlurmJob.run_post_processing (j : SlurmJob) : SlurmJobStatus :=
  if j.on_finished.check j.on_finished.param then .FINISHED else .CRASHED

/-- The body of the reconciliation removal loop in check_on_jobs
(src/slurm_manager.rs:110-113): run the post processing of a job that left
the running set and overwrite its status with the verdict. -/
def finish_job (j : SlurmJob) : SlurmJob :=
  j.set_status j.run_post_processing

/-- Scheduler interaction errors (src/slurm_manager.rs:12-16). -/
inductive SlurmInteractionError where
  | BadSbatchResponse (out : List Char)
  | SlurmUnresponsive (msg : List Char)
  deriving DecidableEq, Repr

/-- Unicode white space, as Rust's char::is_whitespace (the White_Space
property) used by str::trim. -/
def rustIsWhitespace (c : Char) : Bool :=
  c == ' ' || c == '\t' || c == '\n' || c == '\x0b' || c == '\x0c' ||
  c == '\r' || c.val == 0x85 || c.val == 0xa0 || c.val == 0x1680 ||
  (0x2000 ≤ c.val && c.val ≤ 0x200a) || c.val == 0x2028 ||
  c.val == 0x2029 || c.val == 0x202f || c.val == 0x205f || c.val == 0x3000

/-- str::trim: drop white space from both ends. -/
def trimChars (s : List Char) : List Char :=
  ((s.dropWhile rustIsWhitespace).reverse.dropWhile rustIsWhitespace).reverse

/-- str::split with the single-space pattern, as used on the sbatch output
(src/slurm_manager.rs:138): splits at every single space character, keeping
empty fragments; the result is never the empty list. -/
def splitOnSpaceAux : List Char → List Char → List (List Char)
  | [], acc => [acc.reverse]
  | c :: rest, acc =>
      if c = ' ' then acc.reverse :: splitOnSpaceAux rest []
      else splitOnSpaceAux rest (c :: acc)

def splitOnSpace (s : List Char) : List (List Char) :=
  splitOnSpaceAux s []

/-- Digit-run part of i32::from_str: all characters must be ASCII digits and
there must be at least one. -/
def parseDigits (s : List Char) : Option Nat :=
  if s.isEmpty then none
  else if s.all Char.isDigit then
    some (s.foldl (fun acc c => acc * 10 + (c.toNat - 48)) 0)
  else none

/-- str::parse::<i32>: optional sign, digit run, 32-bit range check; every
failure (empty, stray character, overflow) is an error, modelled as `none`. -/
def parseI32 (s : List Char) : Option Int :=
  match s with
  | '+' :: rest =>
      (parseDigits rest).bind fun n =>
        if (n : Int) ≤ 2147483647 then some (n : Int) else none
  | '-' :: rest =>
      (parseDigits rest).bind fun n =>
        if (n : Int) ≤ 2147483648 then some (-(n : Int)) else none
  | rest =>
      (parseDigits rest).bind fun n =>
        if (n : Int) ≤ 2147483647 then some (n : Int) else none

/-- schedule_job (src/slurm_manager.rs:118-151), abstracted over the raw
outcome of launching the sbatch process (`.error msg` = the process could not
be launched, `.ok stdout` = its standard output). The script-file writing has
no effect on the controller state and is not modelled. On a launch failure
the job is returned unchanged with SlurmUnresponsive; otherwise the stdout is
trimmed, split on single spaces, and its last fragment parsed as an i32: on
success the job's status is set to SUBMITTED and the id returned, on parse
failure the job is unchanged and BadSbatchResponse carries the trimmed
output. -/
def schedule_job (proc_result : Except (List Char) (List Char))
    (job : SlurmJob) : SlurmJob × Except SlurmInteractionError Int :=
  match proc_result with
  | .error bad => (job, .error (.SlurmUnresponsive bad))
  | .ok stdout =>
      let out := trimChars stdout
      let out_split := splitOnSpace out
      match parseI32 (out_split.getLastD []) with
      | some job_id => (job.set_status .SUBMITTED, .ok job_id)
      | none => (job, .error (.BadSbatchResponse out))

/-- The controller (src/slurm_manager.rs:18-23). -/
structure SlurmManager where
  open_jobs : List SlurmJob
  scheduled_jobs : List SlurmJob
  finished_jobs : List SlurmJob
  max_queue : Int

/-- SlurmManager::new (src/slurm_manager.rs:26-33). -/
def SlurmManager.new (max_queue : Int) : SlurmManager :=
  { open_jobs := [], scheduled_jobs := [], finished_jobs := [],
    max_queue := max_queue }

/-- add_job (src/slurm_manager.rs:35-39): clone the caller's job, force its
status to PENDING, push the clone onto open_jobs. The caller's instance is
passed by shared reference and never written to; in this value model the
argument `job` is left untouched and only the fresh clone enters the state. -/
def add_job (s : SlurmManager) (job : SlurmJob) : SlurmManager :=
  { s with open_jobs := s.open_jobs ++ [job.set_status .PENDING] }

/-- The membership test of the reconciliation scan
(src/slurm_manager.rs:102): `running_jobs.contains(&job.get_number())`.
get_number fatally aborts when the number is missing; check_on_jobs guards
for that case before this function is used, so the `getD` default is never
consulted under the guard. -/
def job_still_running (running : List Int) (j : SlurmJob) : Bool :=
  running.contains (j.number.getD 0)

/-- The index collection of check_on_jobs (src/slurm_manager.rs:100-106):
indices of scheduled jobs whose number is not in the running set, collected
in ascending iteration order. -/
def done_indices (running : List Int) (scheduled : List SlurmJob) : List Nat :=
  (scheduled.enum.filter (fun p => !(job_still_running running p.2))).map Prod.fst

/-- One removal of the loop at src/slurm_manager.rs:109-114: take the job at
the given index out of the scheduled list, run its post processing, set the
verdict as its status and push it onto the finished list. The `none`
fallback is unreachable: the indices fed to this step are in bounds by
construction. -/
def remove_step (acc : List SlurmJob × List SlurmJob) (i : Nat) :
    List SlurmJob × List SlurmJob :=
  match acc.1[i]? with
  | some j => (acc.1.eraseIdx i, acc.2 ++ [finish_job j])
  | none => acc

/-- The reconciliation core of check_on_jobs (src/slurm_manager.rs:99-115):
collect the indices of no-longer-running jobs (ascending), sort them
ascending (a no-op on an ascending list, kept in the source at line 107),
reverse to descending, then remove in that order; also yields the
finished-jobs counter, which the source increments once per collected
index. -/
def reconcile_loop (running : List Int) (scheduled finished : List SlurmJob) :
    (List SlurmJob × List SlurmJob) × Int :=
  let done := done_indices running scheduled
  (done.reverse.foldl remove_step (scheduled, finished), (done.length : Int))

/-- check_on_jobs (src/slurm_manager.rs:97-116). The squeue interaction of
get_running_jobs is abstracted by its result; the `?` on it propagates the
error with the state untouched. The scan reads every scheduled job's number
through get_number, which fatally aborts when a number is missing — the
`all isSome` guard models that abort as `none`. -/
def check_on_jobs (running_result : Except SlurmInteractionError (List Int))
    (s : SlurmManager) :
    Option (SlurmManager × Except SlurmInteractionError Int) :=
  match running_result with
  | .error e => some (s, .error e)
  | .ok running =>
      if s.scheduled_jobs.all (fun j => j.number.isSome) then
        let r := reconcile_loop running s.scheduled_jobs s.finished_jobs
        some ({ s with scheduled_jobs := r.1.1, finished_jobs := r.1.2 },
              .ok r.2)
      else none

/-- The admission budget of fill_up_queue (src/slurm_manager.rs:155):
`max_queue - scheduled_jobs.len() as i32`. -/
def queue_delta (s : SlurmManager) : Int :=
  s.max_queue - (s.scheduled_jobs.length : Int)

/-- The `for _ in 0..queue_delta` loop of fill_up_queue
(src/slurm_manager.rs:157-177). `rounds` is the remaining iteration count,
`k` the index of the next submission attempt into the sbatch oracle, `added`
the added_jobs counter and `errors` the accumulated error vector. Each round
pops from the back of open_jobs; an empty open list returns `Ok added`
immediately (errors discarded). On a successful submission, set_number is
fatal when the popped job already carries a number (`none`); otherwise the
job, already marked SUBMITTED by schedule_job, receives the returned id and
is pushed onto scheduled_jobs. On a failed submission the popped job is
dropped and the error recorded. After the last round the accumulated errors
decide between `Ok added` and `Err errors`. -/
def fill_up_queue_loop (oracle : Nat → Except (List Char) (List Char)) :
    Nat → Nat → SlurmManager → Int → List SlurmInteractionError →
    Option (SlurmManager × Except (List SlurmInteractionError) Int)
  | _, 0, s, added, errors =>
      some (s, if errors.isEmpty then .ok added else .error errors)
  | k, rounds + 1, s, added, errors =>
      match s.open_jobs.getLast? with
      | none => some (s, .ok added)
      | some job =>
          let s1 := { s with open_jobs := s.open_jobs.dropLast }
          match schedule_job (oracle k) job with
          | (job1, .ok job_id) =>
              match job1.number with
              | some _ => none
              | none =>
                  fill_up_queue_loop oracle (k + 1) rounds
                    { s1 with scheduled_jobs :=
                        s1.scheduled_jobs ++ [{ job1 with number := some job_id }] }
                    (added + 1) errors
          | (_, .error e) =>
              fill_up_queue_loop oracle (k + 1) rounds s1 added (errors ++ [e])

/-- fill_up_queue (src/slurm_manager.rs:153-178), abstracted over the sbatch
oracle giving the raw process outcome of each submission attempt. -/
def fill_up_queue (oracle : Nat → Except (List Char) (List Char))
    (s : SlurmManager) :
    Option (SlurmManager × Except (List SlurmInteractionError) Int) :=
  fill_up_queue_loop oracle 0 (queue_delta s).toNat s 0 []

/-- The `max_time_delta` constant of manage_jobs (src/slurm_manager.rs:182),
commented in the source as one year worth of seconds. -/
def max_time_delta : Int := 365 * 24 * 60

/-- The end-time computation of manage_jobs (src/slurm_manager.rs:183):
wall-clock now plus the caller-supplied duration, defaulting to
max_time_delta seconds. -/
def manage_jobs_end_time (now : Int) (for_sec : Option Int) : Int :=
  now + for_sec.getD max_time_delta

/-- Modelled from the spec: the number of seconds in one year of 365 days,
the default deadline duration the spec states for runUntil. -/
def one_year_seconds : Int := 365 * 24 * 60 * 60

/-- The loop exit test of manage_jobs (src/slurm_manager.rs:186-190): stop
when the deadline is reached or both open and scheduled are empty. -/
def manage_jobs_exit (s : SlurmManager) (now end_time : Int) : Bool :=
  (end_time ≤ now) || (s.open_jobs.isEmpty && s.scheduled_jobs.isEmpty)

/-- One body execution of the manage_jobs loop (src/slurm_manager.rs:191-208)
on the controller state: check_on_jobs (its Ok/Err result is only logged),
then fill_up_queue (its result likewise only logged). A `none` (fatal abort)
from either phase aborts the process. -/
def manage_iteration
    (running_result : Except SlurmInteractionError (List Int))
    (oracle : Nat → Except (List Char) (List Char)) (s : SlurmManager) :
    Option SlurmManager :=
  match check_on_jobs running_result s with
  | none => none
  | some (s1, _) => (fill_up_queue oracle s1).map Prod.fst

/-- The controller operations a caller or the manage_jobs loop can perform on
the state, each abstracted over its external-world input. -/
inductive ManagerOp where
  | add (job : SlurmJob)
  | check (running_result : Except SlurmInteractionError (List Int))
  | fill (oracle : Nat → Except (List Char) (List Char))

/-- Effect of one operation on the controller state (`none` = fatal abort). -/
def step (op : ManagerOp) (s : SlurmManager) : Option SlurmManager :=
  match op with
  | .add job => some (add_job s job)
  | .check running_result => (check_on_jobs running_result s).map Prod.fst
  | .fill oracle => (fill_up_queue oracle s).map Prod.fst

/-- Run a sequence of controller operations. -/
def runOps (ops : List ManagerOp) (s : SlurmManager) : Option SlurmManager :=
  match ops with
  | [] => some s
  | op :: rest => (step op s).bind (runOps rest)

/-- The per-partition record invariant of reachable controller states: open
jobs are PENDING and unnumbered, scheduled jobs are SUBMITTED and numbered,
finished jobs are FINISHED or CRASHED and numbered. -/
def stateInv (s : SlurmManager) : Prop :=
  (∀ j ∈ s.open_jobs, j.status = .PENDING ∧ j.number = none) ∧
  (∀ j ∈ s.scheduled_jobs, j.status = .SUBMITTED ∧ j.number.isSome = true) ∧
  (∀ j ∈ s.finished_jobs,
    (j.status = .FINISHED ∨ j.status = .CRASHED) ∧ j.number.isSome = true)

/-- A sample job as produced by the builder (src/job_builder.rs:91-107):
fresh id, no number, status CREATED, the do-nothing completion predicate. -/
def sampleJob : SlurmJob :=
  { id := "job-1", number := none, command := "sleep 5",
    working_directory := none, env := [], description := "",
    status := .CREATED, max_run_time := none,
    output_file := some "/dev/null", error_file := some "/dev/null",
    on_finished := { param := [], check := fun _ => true },
    memory := .MegaByte 100, cpus := 1 }

/-- A submitted job with number 1 and the always-true predicate. -/
def jobA : SlurmJob :=
  { sampleJob with id := "a", status := .SUBMITTED, number := some 1 }

/-- A submitted job with number 2 and an always-false predicate. -/
def jobB : SlurmJob :=
  { sampleJob with
      id := "b", status := .SUBMITTED, number := some 2,
      on_finished := { param := [], check := fun _ => false } }

/-- An sbatch oracle whose stdout is always the single digit 7. -/
def w_oracle : Nat → Except (List Char) (List Char) := fun _ => .ok ['7']

/-- A concrete operation sequence: enqueue the sample job, admit it, then
reconcile against an empty running set. -/
def w_ops : List ManagerOp :=
  [ManagerOp.add sampleJob, ManagerOp.fill w_oracle, ManagerOp.check (.ok [])]

/-- The job as it comes out of the w_ops run: submitted as number 7, then
finished by its always-true predicate. -/
def w_done_job : SlurmJob :=
  { sampleJob with status := .FINISHED, number := some 7 }

/-- The controller state after running w_ops from a fresh bound-1 manager. -/
def w_final : SlurmManager :=
  { open_jobs := [], scheduled_jobs := [], finished_jobs := [w_done_job],
    max_queue := 1 }

/-! ## Helper lemmas -/

theorem schedule_job_ok_shape (pr : Except (List Char) (List Char))
    (j j1 : SlurmJob) (n : Int) (h : schedule_job pr j = (j1, .ok n)) :
    j1 = j.set_status .SUBMITTED := by
  cases pr with
  | error msg => simp [schedule_job] at h
  | ok stdout =>
      simp only [schedule_job] at h
      rcases hp : parseI32 ((splitOnSpace (trimChars stdout)).getLastD []) with _ | v
      · rw [hp] at h; simp at h
      · rw [hp] at h
        simp only [Prod.mk.injEq] at h
        exact h.1.symm

theorem fill_up_queue_loop_frame
    (oracle : Nat → Except (List Char) (List Char)) (n : Nat) :
    ∀ (k : Nat) (s : SlurmManager) (added : Int)
      (errors : List SlurmInteractionError) (s' : SlurmManager)
      (r : Except (List SlurmInteractionError) Int),
      fill_up_queue_loop oracle k n s added errors = some (s', r) →
      (∀ j ∈ s'.open_jobs, j ∈ s.open_jobs) ∧
      (∀ j ∈ s'.scheduled_jobs, j ∈ s.scheduled_jobs ∨ j.number.isSome = true) ∧
      s'.finished_jobs = s.finished_jobs ∧ s'.max_queue = s.max_queue := by
  induction n with
  | zero =>
      intro k s added errors s' r h
      simp only [fill_up_queue_loop, Option.some.injEq, Prod.mk.injEq] at h
      obtain ⟨rfl, -⟩ := h
      exact ⟨fun j hj => hj, fun j hj => Or.inl hj, rfl, rfl⟩
  | succ n ih =>
      intro k s added errors s' r h
      rcases hl : s.open_jobs.getLast? with _ | job
      · simp only [fill_up_queue_loop, hl, Option.some.injEq, Prod.mk.injEq] at h
        obtain ⟨rfl, -⟩ := h
        exact ⟨fun j hj => hj, fun j hj => Or.inl hj, rfl, rfl⟩
      · rcases hs : schedule_job (oracle k) job with ⟨job1, res⟩
        cases res with
        | ok job_id =>
            rcases hn : job1.number with _ | x
            · simp only [fill_up_queue_loop, hl, hs, hn] at h
              obtain ⟨ho, hsch, hfin, hq⟩ := ih (k + 1) _ (added + 1) errors s' r h
              refine ⟨fun j hj => List.mem_of_mem_dropLast (ho j hj), fun j hj => ?_,
                hfin, hq⟩
              rcases hsch j hj with hj2 | hj2
              · rcases List.mem_append.mp hj2 with hj3 | hj3
                · exact Or.inl hj3
                · right
                  rcases List.mem_singleton.mp hj3 with rfl
                  rfl
              · exact Or.inr hj2
            · simp only [fill_up_queue_loop, hl, hs, hn] at h
              exact Option.noConfusion h
        | error e =>
            simp only [fill_up_queue_loop, hl, hs] at h
            obtain ⟨ho, hsch, hfin, hq⟩ := ih (k + 1) _ added (errors ++ [e]) s' r h
            exact ⟨fun j hj => List.mem_of_mem_dropLast (ho j hj),
              fun j hj => hsch j hj, hfin, hq⟩

/-! ## Claim theorems -/

/-- Claim C3 (code-bug evaluation): called with no deadline, manage_jobs sets
its end time to now plus max_time_delta = 525600 seconds (about 6.08 days),
which is strictly less than — and different from — the one year the source
comment and the spec state: 365*24*60 is one year worth of minutes, not
seconds. -/
theorem manage_jobs_default_deadline_is_not_one_year :
    manage_jobs_end_time 0 none = 525600 ∧
    max_time_delta < one_year_seconds ∧ max_time_delta ≠ one_year_seconds :=
  ⟨by decide, by decide, by decide⟩

/-- Claim C5: when the list-running call yields a SchedulerError, the
reconciliation step returns the state completely unchanged together with the
reported error, and the manage_jobs iteration still proceeds to the admission
step on that same unchanged state instead of aborting. -/
theorem reconcile_error_keeps_state_and_admits (e : SlurmInteractionError)
    (oracle : Nat → Except (List Char) (List Char)) (s : SlurmManager) :
    check_on_jobs (.error e) s = some (s, .error e) ∧
    manage_iteration (.error e) oracle s = (fill_up_queue oracle s).map Prod.fst :=
  ⟨rfl, rfl⟩

/-- Claim C7: set_number on a job that already has a number is a fatal abort
(modelled as none); on a job with no number it succeeds and the assigned
number is readable back through get_number. -/
theorem set_number_exactly_once (j1 j2 : SlurmJob) (n m k : Int)
    (h1 : j1.number = some m) (h2 : j2.number = none) :
    j1.set_number n = none ∧
    ∃ j', j2.set_number k = some j' ∧ j'.get_number = some k := by
  refine ⟨by simp [SlurmJob.set_number, h1], ⟨{ j2 with number := some k }, ?_, rfl⟩⟩
  simp [SlurmJob.set_number, h2]

/-- Witness for C7 at concrete jobs. -/
theorem set_number_exactly_once_witness :
    ({ sampleJob with number := some 1 } : SlurmJob).set_number 5 = none ∧
    ∃ j', sampleJob.set_number 7 = some j' ∧ j'.get_number = some 7 :=
  set_number_exactly_once { sampleJob with number := some 1 } sampleJob 5 1 7 rfl rfl

/-- Claim C8 (amended): on a launch failure, schedule_job returns
Unresponsive with the cause and the job untouched; on a successful launch the
stdout is trimmed and split on single space characters, and the last fragment
is parsed as an i32 — when it parses, the job is marked SUBMITTED and that
identifier (any i32, possibly negative) is returned; when it does not parse,
BadSbatchResponse carries the trimmed output. -/
theorem schedule_job_response_cases (job : SlurmJob)
    (msg stdout1 stdout2 : List Char) (n : Int)
    (h1 : parseI32 ((splitOnSpace (trimChars stdout1)).getLastD []) = some n)
    (h2 : parseI32 ((splitOnSpace (trimChars stdout2)).getLastD []) = none) :
    schedule_job (.error msg) job = (job, .error (.SlurmUnresponsive msg)) ∧
    schedule_job (.ok stdout1) job = (job.set_status .SUBMITTED, .ok n) ∧
    schedule_job (.ok stdout2) job =
      (job, .error (.BadSbatchResponse (trimChars stdout2))) := by
  refine ⟨rfl, ?_, ?_⟩
  · simp only [schedule_job]
    rw [h1]
  · simp only [schedule_job]
    rw [h2]

/-- Witness for C8 (amended) at concrete scheduler outcomes. -/
theorem schedule_job_response_cases_witness :
    schedule_job (.error ['n', 'o']) sampleJob
      = (sampleJob, .error (.SlurmUnresponsive ['n', 'o'])) ∧
    schedule_job (.ok ['o', 'k', ' ', '4', '2']) sampleJob
      = (sampleJob.set_status .SUBMITTED, .ok 42) ∧
    schedule_job (.ok ['b', 'a', 'd']) sampleJob
      = (sampleJob, .error (.BadSbatchResponse ['b', 'a', 'd'])) :=
  schedule_job_response_cases sampleJob ['n', 'o'] ['o', 'k', ' ', '4', '2']
    ['b', 'a', 'd'] 42 (by decide) (by decide)

/-- Counterexample for C8 as stated: the parsed identifier can be negative
(stdout "-5" yields Ok(-5)); the split is on single spaces rather than on
whitespace (stdout "1\t2" has whitespace-last-token "2", which parses, yet
the call fails with BadSbatchResponse); and BadSbatchResponse carries the
trimmed output, not the raw one (stdout "x\n" is reported as "x"). -/
theorem schedule_job_spec_refuted :
    (schedule_job (.ok ['-', '5']) sampleJob).2 = .ok (-5) ∧ (-5 : Int) < 0 ∧
    schedule_job (.ok ['1', '\t', '2']) sampleJob
      = (sampleJob, .error (.BadSbatchResponse ['1', '\t', '2'])) ∧
    parseI32 ['2'] = some 2 ∧
    (schedule_job (.ok ['x', '\n']) sampleJob).2
      = .error (.BadSbatchResponse ['x']) :=
  ⟨rfl, by decide, rfl, by decide, rfl⟩

/-- Claim C9: add_job appends to open_jobs exactly one record — a clone of
the argument with only its status forced to PENDING, every other field
preserved — and leaves the other partitions and the bound untouched; the
argument itself is never modified (it is taken by shared reference in the
source and by value here). -/
theorem add_job_clones_and_forces_pending (s : SlurmManager) (job : SlurmJob) :
    add_job s job
      = { s with open_jobs := s.open_jobs ++ [job.set_status .PENDING] } ∧
    (job.set_status .PENDING).status = .PENDING ∧
    (job.set_status .PENDING).id = job.id ∧
    (job.set_status .PENDING).number = job.number ∧
    (job.set_status .PENDING).command = job.command ∧
    (job.set_status .PENDING).working_directory = job.working_directory ∧
    (job.set_status .PENDING).env = job.env ∧
    (job.set_status .PENDING).description = job.description ∧
    (job.set_status .PENDING).max_run_time = job.max_run_time ∧
    (job.set_status .PENDING).output_file = job.output_file ∧
    (job.set_status .PENDING).error_file = job.error_file ∧
    (job.set_status .PENDING).on_finished = job.on_finished ∧
    (job.set_status .PENDING).memory = job.memory ∧
    (job.set_status .PENDING).cpus = job.cpus ∧
    (add_job s job).scheduled_jobs = s.scheduled_jobs ∧
    (add_job s job).finished_jobs = s.finished_jobs ∧
    (add_job s job).max_queue = s.max_queue :=
  ⟨rfl, rfl, rfl, rfl, rfl, rfl, rfl, rfl, rfl, rfl, rfl, rfl, rfl, rfl, rfl,
    rfl, rfl⟩

/-- Claim C10: whenever the admission loop finds open_jobs empty with budget
rounds still remaining — whatever the number of jobs admitted so far and
whatever submission errors were accumulated earlier in the same step — it
returns Ok carrying exactly that count, discarding the error vector (the
early return at src/slurm_manager.rs:170). fill_up_queue enters this loop at
the full budget, so every admission step in which open empties before the
budget is exhausted reaches such a loop state. -/
theorem fill_up_queue_empty_open_discards_errors
    (oracle : Nat → Except (List Char) (List Char)) (k rounds : Nat)
    (s : SlurmManager) (added : Int)
    (errors : List SlurmInteractionError)
    (hopen : s.open_jobs = []) :
    fill_up_queue_loop oracle k (rounds + 1) s added errors
      = some (s, .ok added) := by
  have h1 : s.open_jobs.getLast? = none := by rw [hopen]; rfl
  simp [fill_up_queue_loop, h1]

/-- Witness for C10 at a mid-step loop state: one job already admitted, one
submission error already accumulated, open empty, budget remaining — the
loop reports Ok 1 and the recorded error is gone. -/
theorem fill_up_queue_empty_open_discards_errors_witness :
    fill_up_queue_loop (fun _ => .error ['x']) 2 2
      { open_jobs := [], scheduled_jobs := [jobA], finished_jobs := [],
        max_queue := 3 }
      1 [.SlurmUnresponsive ['x']]
      = some ({ open_jobs := [], scheduled_jobs := [jobA], finished_jobs := [],
                max_queue := 3 }, .ok 1) :=
  fill_up_queue_empty_open_discards_errors (fun _ => .error ['x']) 2 1
    { open_jobs := [], scheduled_jobs := [jobA], finished_jobs := [],
      max_queue := 3 }
    1 [.SlurmUnresponsive ['x']] rfl

/-- Claim C6: any job popped during the admission loop whose submission
fails is in none of the three partitions once the loop returns. The
statement is over an arbitrary loop state — any submission index k, any
remaining round count, any added counter and any accumulated errors — so it
covers every pop of every fill_up_queue run: fill_up_queue enters the loop
at k = 0 with the full budget, and the pop of each later round is the first
pop of that round's loop state. The job is dropped because open_jobs only
ever shrinks from its back, every job pushed onto scheduled_jobs carries a
number while the popped job carries none, and finished_jobs is never touched
by admission. -/
theorem failed_submission_drops_job
    (oracle : Nat → Except (List Char) (List Char)) (k rounds : Nat)
    (added : Int) (errors : List SlurmInteractionError)
    (s s' : SlurmManager) (r : Except (List SlurmInteractionError) Int)
    (job job1 : SlurmJob) (e : SlurmInteractionError)
    (hpop : s.open_jobs.getLast? = some job)
    (hfail : schedule_job (oracle k) job = (job1, .error e))
    (hrest : job ∉ s.open_jobs.dropLast)
    (hnum : job.number = none)
    (hsched : job ∉ s.scheduled_jobs)
    (hfin : job ∉ s.finished_jobs)
    (hrun : fill_up_queue_loop oracle k (rounds + 1) s added errors
      = some (s', r)) :
    job ∉ s'.open_jobs ∧ job ∉ s'.scheduled_jobs ∧ job ∉ s'.finished_jobs := by
  simp only [fill_up_queue_loop, hpop, hfail] at hrun
  obtain ⟨ho, hsch, hf, -⟩ :=
    fill_up_queue_loop_frame oracle rounds (k + 1) _ added _ s' r hrun
  refine ⟨fun hj => hrest (ho job hj), fun hj => ?_, fun hj => ?_⟩
  · rcases hsch job hj with hj2 | hj2
    · exact hsched hj2
    · rw [hnum] at hj2; simp at hj2
  · rw [hf] at hj; exact hfin hj

/-- Witness for C6 at a second-round pop: the submission at index 0 admitted
jobA earlier in the same step; the pop at submission index 1 fails, the loop
runs to completion reporting the one earlier admission, and the popped job
is in none of the partitions. -/
theorem failed_submission_drops_job_witness :
    sampleJob ∉ ([] : List SlurmJob) ∧ sampleJob ∉ [jobA] ∧
    sampleJob ∉ ([] : List SlurmJob) :=
  failed_submission_drops_job
    (fun k => if k = 0 then .ok ['7'] else .error ['z']) 1 1 1 []
    { open_jobs := [sampleJob], scheduled_jobs := [jobA], finished_jobs := [],
      max_queue := 2 }
    { open_jobs := [], scheduled_jobs := [jobA], finished_jobs := [],
      max_queue := 2 }
    (.ok 1) sampleJob sampleJob (.SlurmUnresponsive ['z'])
    rfl rfl (by simp) rfl
    (by
      intro hmem
      rw [List.mem_singleton] at hmem
      have hid : sampleJob.id = jobA.id := congrArg SlurmJob.id hmem
      simp [sampleJob, jobA] at hid)
    (by simp) rfl

theorem done_indices_append (running : List Int) (l : List SlurmJob)
    (a : SlurmJob) :
    done_indices running (l ++ [a])
      = done_indices running l
        ++ (if job_still_running running a then [] else [l.length]) := by
  simp only [done_indices, List.enum_append, List.enumFrom_singleton,
    List.filter_append, List.map_append]
  congr 1
  by_cases h : job_still_running running a <;> simp [h]

theorem done_indices_lt (running : List Int) (l : List SlurmJob) :
    ∀ i ∈ done_indices running l, i < l.length := by
  intro i hi
  simp only [done_indices, List.mem_map] at hi
  obtain ⟨p, hp, rfl⟩ := hi
  exact List.fst_lt_of_mem_enum (List.mem_filter.mp hp).1

theorem done_indices_pairwise (running : List Int) (l : List SlurmJob) :
    (done_indices running l).Pairwise (· < ·) := by
  induction l using List.reverseRecOn with
  | nil => simp [done_indices]
  | append_singleton l a ih =>
      rw [done_indices_append]
      by_cases h : job_still_running running a
      · simpa [h] using ih
      · rw [if_neg h, List.pairwise_append]
        refine ⟨ih, by simp, ?_⟩
        intro x hx b hb
        rw [List.mem_singleton] at hb
        subst hb
        exact done_indices_lt running l x hx

theorem done_indices_length (running : List Int) (l : List SlurmJob) :
    (done_indices running l).length
      = (l.filter (fun j => !(job_still_running running j))).length := by
  induction l using List.reverseRecOn with
  | nil => rfl
  | append_singleton l a ih =>
      rw [done_indices_append, List.filter_append, List.length_append,
        List.length_append, ih]
      by_cases h : job_still_running running a <;> simp [h]

theorem foldl_remove_step_append (idxs : List Nat) :
    ∀ (l t f : List SlurmJob),
      (∀ i ∈ idxs, i < l.length) →
      idxs.Pairwise (fun a b => b < a) →
      idxs.foldl remove_step (l ++ t, f)
        = ((idxs.foldl remove_step (l, f)).1 ++ t,
           (idxs.foldl remove_step (l, f)).2) := by
  induction idxs with
  | nil => intro l t f _ _; rfl
  | cons i rest ih =>
      intro l t f hb hd
      have hi : i < l.length := hb i (List.mem_cons_self i rest)
      rcases hx : l[i]? with _ | x
      · rw [List.getElem?_eq_none_iff] at hx; omega
      · have hstep1 : remove_step (l ++ t, f) i
            = (l.eraseIdx i ++ t, f ++ [finish_job x]) := by
          simp only [remove_step, List.getElem?_append, hi, if_pos, hx,
            List.eraseIdx_append_of_lt_length hi]
        have hstep2 : remove_step (l, f) i = (l.eraseIdx i, f ++ [finish_job x]) := by
          simp only [remove_step, hx]
        rw [List.foldl_cons, List.foldl_cons, hstep1, hstep2]
        have hlen : (l.eraseIdx i).length = l.length - 1 := by
          rw [List.length_eraseIdx]
          simp [hi]
        have hb2 : ∀ j ∈ rest, j < (l.eraseIdx i).length := by
          intro j hj
          have hji : j < i := (List.pairwise_cons.mp hd).1 j hj
          omega
        exact ih (l.eraseIdx i) t (f ++ [finish_job x]) hb2
          (List.pairwise_cons.mp hd).2

theorem reconcile_loop_fold (running : List Int) (l : List SlurmJob) :
    ∀ f : List SlurmJob,
      (done_indices running l).reverse.foldl remove_step (l, f)
        = (l.filter (job_still_running running),
           f ++ ((l.filter
              (fun j => !(job_still_running running j))).reverse.map
                finish_job)) := by
  induction l using List.reverseRecOn with
  | nil => intro f; simp [done_indices]
  | append_singleton l a ih =>
      intro f
      rw [done_indices_append]
      by_cases h : job_still_running running a
      · rw [if_pos h, List.append_nil]
        rw [foldl_remove_step_append (done_indices running l).reverse l [a] f
          (fun i hi => done_indices_lt running l i (List.mem_reverse.mp hi))
          (List.pairwise_reverse.mpr (done_indices_pairwise running l))]
        rw [ih f]
        simp [List.filter_append, h]
      · rw [if_neg h, List.reverse_append, List.reverse_singleton,
          List.singleton_append, List.foldl_cons]
        have hstep : remove_step (l ++ [a], f) l.length
            = (l, f ++ [finish_job a]) := by
          simp only [remove_step, List.getElem?_concat_length,
            List.eraseIdx_append_of_length_le (le_refl l.length)]
          simp
        rw [hstep, ih (f ++ [finish_job a])]
        simp [List.filter_append, h]

theorem check_on_jobs_ok (running : List Int) (s : SlurmManager)
    (h : ∀ j ∈ s.scheduled_jobs, j.number.isSome = true) :
    check_on_jobs (.ok running) s
      = some ({ s with
          scheduled_jobs := s.scheduled_jobs.filter (job_still_running running),
          finished_jobs := s.finished_jobs
            ++ ((s.scheduled_jobs.filter
                  (fun j => !(job_still_running running j))).reverse.map
                finish_job) },
        .ok ((s.scheduled_jobs.filter
              (fun j => !(job_still_running running j))).length : Int)) := by
  have hall : s.scheduled_jobs.all (fun j => j.number.isSome) = true :=
    List.all_eq_true.mpr h
  simp only [check_on_jobs, hall, if_pos, reconcile_loop]
  rw [reconcile_loop_fold, done_indices_length]

/-- Claim C4: with a successful list-running result, reconciliation keeps in
scheduled_jobs exactly the jobs whose number is in the running set (in
order), appends to finished_jobs each departed job with its post-processing
verdict as status (FINISHED when its completion predicate yields true,
CRASHED when false, the number untouched), and reports the count of departed
jobs. -/
theorem reconcile_partitions_jobs (running : List Int) (s : SlurmManager)
    (j : SlurmJob)
    (h : ∀ jb ∈ s.scheduled_jobs, jb.number.isSome = true) :
    check_on_jobs (.ok running) s
      = some ({ s with
          scheduled_jobs := s.scheduled_jobs.filter (job_still_running running),
          finished_jobs := s.finished_jobs
            ++ ((s.scheduled_jobs.filter
                  (fun jb => !(job_still_running running jb))).reverse.map
                finish_job) },
        .ok ((s.scheduled_jobs.filter
              (fun jb => !(job_still_running running jb))).length : Int)) ∧
    (finish_job j).status
      = (if j.on_finished.check j.on_finished.param
          then SlurmJobStatus.FINISHED else SlurmJobStatus.CRASHED) ∧
    (finish_job j).number = j.number :=
  ⟨check_on_jobs_ok running s h, rfl, rfl⟩

/-- Witness for C4: two submitted jobs with numbers 1 and 2, of which only 1
is still running; job b leaves, its always-false predicate marks it CRASHED,
job a remains. -/
theorem reconcile_partitions_jobs_witness :
    check_on_jobs (.ok [1])
      { open_jobs := [], scheduled_jobs := [jobA, jobB], finished_jobs := [],
        max_queue := 5 }
      = some ({ open_jobs := [], scheduled_jobs := [jobA],
                finished_jobs := [{ jobB with status := .CRASHED }],
                max_queue := 5 }, .ok 1) ∧
    (finish_job jobB).status = SlurmJobStatus.CRASHED ∧
    (finish_job jobB).number = jobB.number := by
  have h := reconcile_partitions_jobs [1]
    { open_jobs := [], scheduled_jobs := [jobA, jobB], finished_jobs := [],
      max_queue := 5 } jobB
    (by
      intro jb hjb
      rcases List.mem_cons.mp hjb with rfl | hjb2
      · rfl
      · rcases List.mem_singleton.mp hjb2 with rfl
        rfl)
  exact ⟨h.1.trans (by rfl), h.2.1.trans (by rfl), h.2.2⟩

theorem stateInv_new (q : Int) : stateInv (SlurmManager.new q) := by
  refine ⟨?_, ?_, ?_⟩ <;> intro j hj <;> simp [SlurmManager.new] at hj

theorem check_on_jobs_stateInv (res : Except SlurmInteractionError (List Int))
    (s s' : SlurmManager) (r : Except SlurmInteractionError Int)
    (hinv : stateInv s) (h : check_on_jobs res s = some (s', r)) :
    stateInv s' := by
  cases res with
  | error e =>
      simp only [check_on_jobs, Option.some.injEq, Prod.mk.injEq] at h
      obtain ⟨rfl, -⟩ := h
      exact hinv
  | ok running =>
      have hall : ∀ j ∈ s.scheduled_jobs, j.number.isSome = true :=
        fun j hj => (hinv.2.1 j hj).2
      rw [check_on_jobs_ok running s hall] at h
      simp only [Option.some.injEq, Prod.mk.injEq] at h
      obtain ⟨rfl, -⟩ := h
      refine ⟨hinv.1, ?_, ?_⟩
      · intro j hj
        have hj2 : j ∈ s.scheduled_jobs.filter (job_still_running running) := hj
        exact hinv.2.1 j (List.mem_filter.mp hj2).1
      · intro j hj
        have hj2 : j ∈ s.finished_jobs
            ++ ((s.scheduled_jobs.filter
                  (fun jb => !(job_still_running running jb))).reverse.map
                finish_job) := hj
        rcases List.mem_append.mp hj2 with hj3 | hj3
        · exact hinv.2.2 j hj3
        · obtain ⟨j0, hj0, rfl⟩ := List.mem_map.mp hj3
          have hj0s : j0 ∈ s.scheduled_jobs :=
            (List.mem_filter.mp (List.mem_reverse.mp hj0)).1
          constructor
          · by_cases hc : j0.on_finished.check j0.on_finished.param
            · left
              simp [finish_job, SlurmJob.set_status, SlurmJob.run_post_processing, hc]
            · right
              simp [finish_job, SlurmJob.set_status, SlurmJob.run_post_processing, hc]
          · have hfn : (finish_job j0).number = j0.number := rfl
            rw [hfn]
            exact (hinv.2.1 j0 hj0s).2

theorem fill_up_queue_loop_stateInv
    (oracle : Nat → Except (List Char) (List Char)) (n : Nat) :
    ∀ (k : Nat) (s : SlurmManager) (added : Int)
      (errors : List SlurmInteractionError) (s' : SlurmManager)
      (r : Except (List SlurmInteractionError) Int),
      stateInv s → fill_up_queue_loop oracle k n s added errors = some (s', r) →
      stateInv s' := by
  induction n with
  | zero =>
      intro k s added errors s' r hinv h
      simp only [fill_up_queue_loop, Option.some.injEq, Prod.mk.injEq] at h
      obtain ⟨rfl, -⟩ := h
      exact hinv
  | succ n ih =>
      intro k s added errors s' r hinv h
      rcases hl : s.open_jobs.getLast? with _ | job
      · simp only [fill_up_queue_loop, hl, Option.some.injEq, Prod.mk.injEq] at h
        obtain ⟨rfl, -⟩ := h
        exact hinv
      · have hmem : job ∈ s.open_jobs := List.mem_of_mem_getLast? hl
        obtain ⟨hst, hnum⟩ := hinv.1 job hmem
        rcases hs : schedule_job (oracle k) job with ⟨job1, res⟩
        cases res with
        | ok job_id =>
            have hj1 : job1 = job.set_status .SUBMITTED :=
              schedule_job_ok_shape (oracle k) job job1 job_id hs
            have hn : job1.number = none := by rw [hj1]; exact hnum
            simp only [fill_up_queue_loop, hl, hs, hn] at h
            refine ih (k + 1) _ (added + 1) errors s' r ?_ h
            refine ⟨?_, ?_, hinv.2.2⟩
            · intro j hj
              exact hinv.1 j (List.mem_of_mem_dropLast hj)
            · intro j hj
              have hj2 : j ∈ s.scheduled_jobs ++ [{ job1 with number := some job_id }] := hj
              rcases List.mem_append.mp hj2 with hj3 | hj3
              · exact hinv.2.1 j hj3
              · rw [List.mem_singleton] at hj3
                subst hj3
                constructor
                · show job1.status = .SUBMITTED
                  rw [hj1]
                  rfl
                · rfl
        | error e =>
            simp only [fill_up_queue_loop, hl, hs] at h
            refine ih (k + 1) _ added (errors ++ [e]) s' r ?_ h
            exact ⟨fun j hj => hinv.1 j (List.mem_of_mem_dropLast hj),
              hinv.2.1, hinv.2.2⟩

theorem runOps_stateInv (ops : List ManagerOp) :
    ∀ (s s' : SlurmManager),
      (∀ job, ManagerOp.add job ∈ ops → job.number = none) →
      stateInv s → runOps ops s = some s' → stateInv s' := by
  induction ops with
  | nil =>
      intro s s' _ hinv h
      simp only [runOps, Option.some.injEq] at h
      exact h ▸ hinv
  | cons op rest ih =>
      intro s s' hops hinv h
      simp only [runOps] at h
      obtain ⟨s1, hstep, hrest⟩ := Option.bind_eq_some.mp h
      have hops2 : ∀ job, ManagerOp.add job ∈ rest → job.number = none :=
        fun job hj => hops job (List.mem_cons_of_mem op hj)
      refine ih s1 s' hops2 ?_ hrest
      cases op with
      | add job =>
          simp only [step, Option.some.injEq] at hstep
          subst hstep
          have hjn : job.number = none := hops job (List.mem_cons_self _ _)
          refine ⟨?_, hinv.2.1, hinv.2.2⟩
          intro j hj
          have hj2 : j ∈ s.open_jobs ++ [job.set_status .PENDING] := hj
          rcases List.mem_append.mp hj2 with hj3 | hj3
          · exact hinv.1 j hj3
          · rw [List.mem_singleton] at hj3
            subst hj3
            exact ⟨rfl, hjn⟩
      | check res =>
          simp only [step] at hstep
          obtain ⟨p, hp, hp1⟩ := Option.map_eq_some'.mp hstep
          subst hp1
          exact check_on_jobs_stateInv res s p.1 p.2 hinv hp
      | fill oracle =>
          simp only [step] at hstep
          obtain ⟨p, hp, hp1⟩ := Option.map_eq_some'.mp hstep
          subst hp1
          exact fill_up_queue_loop_stateInv oracle ((queue_delta s).toNat) 0 s
            0 [] p.1 p.2 hinv hp

theorem fill_up_queue_loop_sched_len
    (oracle : Nat → Except (List Char) (List Char)) (n : Nat) :
    ∀ (k : Nat) (s : SlurmManager) (added : Int)
      (errors : List SlurmInteractionError) (s' : SlurmManager)
      (r : Except (List SlurmInteractionError) Int),
      fill_up_queue_loop oracle k n s added errors = some (s', r) →
      s'.scheduled_jobs.length ≤ s.scheduled_jobs.length + n := by
  induction n with
  | zero =>
      intro k s added errors s' r h
      simp only [fill_up_queue_loop, Option.some.injEq, Prod.mk.injEq] at h
      obtain ⟨rfl, -⟩ := h
      omega
  | succ n ih =>
      intro k s added errors s' r h
      rcases hl : s.open_jobs.getLast? with _ | job
      · simp only [fill_up_queue_loop, hl, Option.some.injEq, Prod.mk.injEq] at h
        obtain ⟨rfl, -⟩ := h
        omega
      · rcases hs : schedule_job (oracle k) job with ⟨job1, res⟩
        cases res with
        | ok job_id =>
            rcases hn : job1.number with _ | x
            · simp only [fill_up_queue_loop, hl, hs, hn] at h
              have hrec := ih (k + 1) _ (added + 1) errors s' r h
              simp only [List.length_append, List.length_singleton] at hrec
              omega
            · simp only [fill_up_queue_loop, hl, hs, hn] at h
              exact Option.noConfusion h
        | error e =>
            simp only [fill_up_queue_loop, hl, hs] at h
            have hrec := ih (k + 1) _ added (errors ++ [e]) s' r h
            have hrec2 : s'.scheduled_jobs.length ≤ s.scheduled_jobs.length + n :=
              hrec
            omega

theorem step_size (q : Int) (op : ManagerOp) (s s' : SlurmManager)
    (hq : s.max_queue = q) (hlen : (s.scheduled_jobs.length : Int) ≤ q)
    (h : step op s = some s') :
    s'.max_queue = q ∧ (s'.scheduled_jobs.length : Int) ≤ q := by
  cases op with
  | add job =>
      simp only [step, Option.some.injEq] at h
      subst h
      exact ⟨hq, hlen⟩
  | check res =>
      simp only [step] at h
      obtain ⟨p, hp, hp1⟩ := Option.map_eq_some'.mp h
      subst hp1
      cases res with
      | error e =>
          simp only [check_on_jobs, Option.some.injEq] at hp
          subst hp
          exact ⟨hq, hlen⟩
      | ok running =>
          by_cases hall : s.scheduled_jobs.all (fun j => j.number.isSome) = true
          · rw [check_on_jobs_ok running s (List.all_eq_true.mp hall)] at hp
            have hp2 := Option.some.inj hp
            subst hp2
            constructor
            · exact hq
            · have hle : (s.scheduled_jobs.filter
                  (job_still_running running)).length ≤ s.scheduled_jobs.length :=
                List.length_filter_le _ _
              have hle2 : ((s.scheduled_jobs.filter
                  (job_still_running running)).length : Int)
                  ≤ (s.scheduled_jobs.length : Int) := Nat.cast_le.mpr hle
              exact le_trans hle2 hlen
          · have hnone : check_on_jobs (.ok running) s = none := by
              simp [check_on_jobs, hall]
            rw [hnone] at hp
            exact Option.noConfusion hp
  | fill oracle =>
      simp only [step] at h
      obtain ⟨p, hp, hp1⟩ := Option.map_eq_some'.mp h
      subst hp1
      obtain ⟨-, -, -, hqeq⟩ :=
        fill_up_queue_loop_frame oracle ((queue_delta s).toNat) 0 s 0 [] p.1 p.2 hp
      have hlen2 :=
        fill_up_queue_loop_sched_len oracle ((queue_delta s).toNat) 0 s 0 []
          p.1 p.2 hp
      refine ⟨by rw [hqeq, hq], ?_⟩
      have hd : (queue_delta s).toNat = (q - (s.scheduled_jobs.length : Int)).toNat := by
        unfold queue_delta
        rw [hq]
      rw [hd] at hlen2
      omega

theorem runOps_size (ops : List ManagerOp) :
    ∀ (s s' : SlurmManager) (q : Int),
      s.max_queue = q → (s.scheduled_jobs.length : Int) ≤ q →
      runOps ops s = some s' →
      s'.max_queue = q ∧ (s'.scheduled_jobs.length : Int) ≤ q := by
  induction ops with
  | nil =>
      intro s s' q hq hlen h
      simp only [runOps, Option.some.injEq] at h
      subst h
      exact ⟨hq, hlen⟩
  | cons op rest ih =>
      intro s s' q hq hlen h
      simp only [runOps] at h
      obtain ⟨s1, hstep, hrest⟩ := Option.bind_eq_some.mp h
      obtain ⟨hq1, hlen1⟩ := step_size q op s s1 hq hlen hstep
      exact ih s1 s' q hq1 hlen1 hrest

/-- Claim C1: along every operation sequence from a fresh controller, with
jobs enqueued as callers can construct them (the crate never lets a caller
build a job that already carries an external number), every tracked job has
a number exactly when its status is SUBMITTED, FINISHED or CRASHED. -/
theorem controller_number_iff_status (q : Int) (ops : List ManagerOp)
    (s : SlurmManager) (j : SlurmJob)
    (henq : ∀ job, ManagerOp.add job ∈ ops → job.number = none)
    (hrun : runOps ops (SlurmManager.new q) = some s)
    (hmem : j ∈ s.open_jobs ∨ j ∈ s.scheduled_jobs ∨ j ∈ s.finished_jobs) :
    j.number.isSome = true ↔
      (j.status = .SUBMITTED ∨ j.status = .FINISHED ∨ j.status = .CRASHED) := by
  have hinv : stateInv s :=
    runOps_stateInv ops (SlurmManager.new q) s henq (stateInv_new q) hrun
  rcases hmem with h | h | h
  · obtain ⟨hst, hn⟩ := hinv.1 j h
    simp [hn, hst]
  · obtain ⟨hst, hn⟩ := hinv.2.1 j h
    simp [hn, hst]
  · obtain ⟨hst, hn⟩ := hinv.2.2 j h
    simp only [hn, true_iff]
    rcases hst with h2 | h2 <;> simp [h2]

/-- Witness for C1: enqueue the sample job, admit it (sbatch answers 7),
reconcile against an empty running set; the finished job carries number 7
and terminal status FINISHED. -/
theorem controller_number_iff_status_witness :
    w_done_job.number.isSome = true ↔
      (w_done_job.status = .SUBMITTED ∨ w_done_job.status = .FINISHED ∨
        w_done_job.status = .CRASHED) :=
  controller_number_iff_status 1 w_ops w_final w_done_job
    (by
      intro job hjob
      simp only [w_ops, List.mem_cons, List.not_mem_nil, or_false] at hjob
      rcases hjob with h | h | h
      · injection h with h2
        subst h2
        rfl
      · exact ManagerOp.noConfusion h
      · exact ManagerOp.noConfusion h)
    rfl
    (Or.inr (Or.inr (List.mem_singleton.mpr rfl)))

/-- Claim C2 (amended): provided the controller is constructed with a
non-negative max_queue, the admission budget max_queue - |scheduled| is
non-negative in every reachable state, and an admission step from such a
state never leaves more than max_queue scheduled jobs. -/
theorem admission_budget_nonneg (q : Int) (ops : List ManagerOp)
    (s s' : SlurmManager) (oracle : Nat → Except (List Char) (List Char))
    (r : Except (List SlurmInteractionError) Int)
    (h0 : 0 ≤ q) (hrun : runOps ops (SlurmManager.new q) = some s) :
    0 ≤ queue_delta s ∧
    (fill_up_queue oracle s = some (s', r) →
      (s'.scheduled_jobs.length : Int) ≤ q) := by
  obtain ⟨hq, hlen⟩ := runOps_size ops (SlurmManager.new q) s q rfl
    (by simpa [SlurmManager.new] using h0) hrun
  constructor
  · unfold queue_delta
    omega
  · intro hfill
    have hstep : step (ManagerOp.fill oracle) s = some s' := by
      simp [step, hfill]
    exact (step_size q (ManagerOp.fill oracle) s s' hq hlen hstep).2

/-- Witness for C2 (amended) on a fresh bound-2 controller and an admission
step that finds nothing to do. -/
theorem admission_budget_nonneg_witness :
    0 ≤ queue_delta (SlurmManager.new 2) ∧
    (((SlurmManager.new 2).scheduled_jobs.length : Int) ≤ 2) := by
  have h := admission_budget_nonneg 2 [] (SlurmManager.new 2)
    (SlurmManager.new 2) (fun _ => .ok ['8']) (.ok 0) (by decide) rfl
  exact ⟨h.1, h.2 rfl⟩

/-- Counterexample for C2 as stated: a controller constructed with
max_queue = -1 is reachable (it is the initial state), and its very first
admission step computes the negative budget -1. -/
theorem admission_budget_negative_at_negative_bound :
    runOps [] (SlurmManager.new (-1)) = some (SlurmManager.new (-1)) ∧
    queue_delta (SlurmManager.new (-1)) = -1 ∧
    queue_delta (SlurmManager.new (-1)) < 0 :=
  ⟨rfl, by decide, by decide⟩
